import Mathlib

/-! AntFarmSimulation.

A shallow embedding of `src/main.cpp` (ants, rooms, ant farms and the
simulation manager) together with theorems about it.

Modelling conventions.

* C++ `int` values are `Int`; `/` on `int` truncates toward zero and is
  `Int.tdiv`.  The sum that `Ant::battle` stores into `health` can leave the
  range of a 32-bit `int`; it is reduced to that range as two's complement
  arithmetic does (`wrapInt32`).  `buildProgress` stops growing at the target
  of the room and `food` only falls, by the number of rooms, so neither leaves
  the range of `int` on a state the program can reach.
* Objects held through `shared_ptr` live in a heap, a total function from
  addresses to objects; a `shared_ptr<Ant>` handed to `Room::addAnt` is the
  address of a live object, a `shared_ptr<AntFarm>` stored by the manager may
  also be null (`none`), since `checkActiveColonies` tests for it.
* `std::map<string, Room>` is an association list in which `find` returns the
  first binding of a key and `emplace` never adds a key that is already bound;
  the program never iterates over the map, so its order is not observable.
* Text written to `cout` and `cerr` is a list of `Output` events in the order
  written; `Output.text` gives the characters of each.
* `typeid(*ant).name()` is implementation defined; it is a parameter
  `typeidName` of the operations that use it, and `itaniumName` is its value
  under the Itanium C++ ABI (GCC, Clang).
-/

namespace AntFarmSimulation

/-- Address of an object owned through a `shared_ptr`. -/
abbrev Addr := Nat

/-- The concrete subclasses of `Ant`, that is the possible dynamic types of an
`Ant` object. -/
inductive AntClass where
  | WorkerAnt
  | SoldierAnt
  | QueenAnt
deriving DecidableEq, Repr

/-- One line written to `cout` or `cerr`. -/
inductive Output where
  | workerWorking
  | soldierPatrolling
  | queenCommanding
  | speciesMismatch
  | roomCompleted (name : String)
  | roomNotFound (roomName : String)
  | starving
  | fed (food : Int)
  | simulationEnds
  | tick (i : Int)
deriving DecidableEq, Repr

/-- Whether the event is written to `cerr` (otherwise to `cout`). -/
def Output.isError : Output → Bool
  | .speciesMismatch => true
  | .roomNotFound _ => true
  | .starving => true
  | _ => false

/-- The characters written for an event. -/
def Output.text : Output → String
  | .workerWorking => "WorkerAnt is working.\n"
  | .soldierPatrolling => "SoldierAnt is patrolling.\n"
  | .queenCommanding => "QueenAnt is commanding the colony.\n"
  | .speciesMismatch => "Error: Cannot add ants of a different species to this room.\n"
  | .roomCompleted name => "Room " ++ name ++ " has been completed.\n"
  | .roomNotFound roomName => "Error: Room " ++ roomName ++ " does not exist.\n"
  | .starving => "No food available. Ants are starving.\n"
  | .fed food => "Ants have been fed. Remaining food: " ++ toString food ++ "\n"
  | .simulationEnds => "Simulation ends. Only one active colony remains.\n"
  | .tick i => "Tick: " ++ toString i ++ "\n"

/-- The fields of `class Ant`, with the dynamic type of the object. -/
structure Ant where
  kind : AntClass
  health : Int
  strength : Int
  isResting : Bool
deriving DecidableEq, Repr

/-- Base constructor `Ant(int h, int s)` run for an object of class `k`. -/
def Ant.new (k : AntClass) (h s : Int) : Ant :=
  { kind := k, health := h, strength := s, isResting := false }

/-- Constructor `WorkerAnt() : Ant(50, 10)`. -/
def WorkerAnt : Ant := Ant.new AntClass.WorkerAnt 50 10

/-- Constructor `SoldierAnt() : Ant(70, 30)`. -/
def SoldierAnt : Ant := Ant.new AntClass.SoldierAnt 70 30

/-- Constructor `QueenAnt() : Ant(100, 50)`. -/
def QueenAnt : Ant := Ant.new AntClass.QueenAnt 100 50

/-- The strength each subclass passes to the base constructor. -/
def AntClass.strength : AntClass → Int
  | .WorkerAnt => 10
  | .SoldierAnt => 30
  | .QueenAnt => 50

/-- The health each subclass passes to the base constructor. -/
def AntClass.health : AntClass → Int
  | .WorkerAnt => 50
  | .SoldierAnt => 70
  | .QueenAnt => 100

/-- The strength of the object is the one its class fixed at construction;
no member function assigns `strength`. -/
def Ant.StrengthFixed (a : Ant) : Prop := a.strength = a.kind.strength

instance (a : Ant) : Decidable a.StrengthFixed := by
  unfold Ant.StrengthFixed; infer_instance

/-- Virtual `action()`: the override of the dynamic type. -/
def Ant.action (a : Ant) : List Output :=
  match a.kind with
  | .WorkerAnt => [Output.workerWorking]
  | .SoldierAnt => [Output.soldierPatrolling]
  | .QueenAnt => [Output.queenCommanding]

/-- The ant objects of the program, by address. -/
abbrev AntHeap := Addr → Ant

/-- The least value of a 32-bit `int`. -/
def INT_MIN : Int := -2147483648

/-- The greatest value of a 32-bit `int`. -/
def INT_MAX : Int := 2147483647

/-- The 32-bit two's complement `int` that an integer result is stored as. -/
def wrapInt32 (x : Int) : Int := (x + 2147483648) % 4294967296 - 2147483648

/-- Member function `bool Ant::battle(Ant& opponent)` called on the object at
`self` with the object at `opponent` (the two addresses may coincide); the
sum assigned by `+=` is stored as an `int`. -/
def Ant.battle (σ : AntHeap) (self opponent : Addr) : Bool × AntHeap :=
  if (σ self).strength > (σ opponent).strength then
    (true, Function.update σ self
      { σ self with
        health := wrapInt32 ((σ self).health + Int.tdiv (σ opponent).strength 2) })
  else
    (false, Function.update σ opponent
      { σ opponent with
        health := wrapInt32 ((σ opponent).health + Int.tdiv (σ self).strength 2) })

/-- The sum that `battle` computes for the `health` field it assigns. -/
def Ant.battleSum (σ : AntHeap) (self opponent : Addr) : Int :=
  if (σ self).strength > (σ opponent).strength then
    (σ self).health + Int.tdiv (σ opponent).strength 2
  else
    (σ opponent).health + Int.tdiv (σ self).strength 2

/-- The sum that `battle` computes is a value of `int`: the addition does not
overflow. -/
def Ant.battleFits (σ : AntHeap) (self opponent : Addr) : Prop :=
  INT_MIN ≤ Ant.battleSum σ self opponent ∧ Ant.battleSum σ self opponent ≤ INT_MAX

instance (σ : AntHeap) (self opponent : Addr) : Decidable (Ant.battleFits σ self opponent) := by
  unfold Ant.battleFits; infer_instance

/-- Member function `void rest()`. -/
def Ant.rest (a : Ant) : Ant := { a with isResting := true }

/-- Member function `void recover()`. -/
def Ant.recover (a : Ant) : Ant := { a with isResting := false }

/-- Member function `bool resting() const`. -/
def Ant.resting (a : Ant) : Bool := a.isResting

/-- Member function `bool isAlive() const`. -/
def Ant.isAlive (a : Ant) : Bool := decide (a.health > 0)

/-- The value of `typeid(x).name()` under the Itanium C++ ABI. -/
def itaniumName : AntClass → String
  | .WorkerAnt => "9WorkerAnt"
  | .SoldierAnt => "10SoldierAnt"
  | .QueenAnt => "8QueenAnt"

/-- The fields of `class Room`; `ants` holds the addresses of the ant objects. -/
structure Room where
  name : String
  species : String
  ants : List Addr
  underConstruction : Bool
  buildProgress : Int
  requiredTicks : Int
deriving DecidableEq, Repr

/-- Default constructor `Room()`. -/
def Room.default : Room :=
  { name := "", species := "", ants := [], underConstruction := false,
    buildProgress := 0, requiredTicks := 0 }

/-- Constructor `Room(const string& n, const string& s, int ticks)`. -/
def Room.new (n s : String) (ticks : Int) : Room :=
  { name := n, species := s, ants := [], underConstruction := true,
    buildProgress := 0, requiredTicks := ticks }

/-- Member function `void Room::addAnt(shared_ptr<Ant> ant)`. -/
def Room.addAnt (typeidName : AntClass → String) (σ : AntHeap) (r : Room) (ant : Addr) :
    Room × List Output :=
  let r1 : Room :=
    if r.species.isEmpty then { r with species := typeidName (σ ant).kind } else r
  if typeidName (σ ant).kind = r1.species then
    ({ r1 with ants := r1.ants ++ [ant] }, [])
  else
    (r1, [Output.speciesMismatch])

/-- Member function `void Room::contributeToBuilding()`. -/
def Room.contributeToBuilding (r : Room) : Room × List Output :=
  if r.underConstruction then
    let r1 : Room := { r with buildProgress := r.buildProgress + 1 }
    if r1.buildProgress ≥ r1.requiredTicks then
      ({ r1 with underConstruction := false }, [Output.roomCompleted r1.name])
    else
      (r1, [])
  else
    (r, [])

/-- Member function `bool Room::isComplete() const`. -/
def Room.isComplete (r : Room) : Bool := !r.underConstruction

/-- Member function `getAnts()`. -/
def Room.getAnts (r : Room) : List Addr := r.ants

/-- Member function `getSpecies()`. -/
def Room.getSpecies (r : Room) : String := r.species

/-- The room after `k` successive calls of `contributeToBuilding`. -/
def Room.contributeTimes (k : Nat) (r : Room) : Room :=
  (fun x => (Room.contributeToBuilding x).1)^[k] r

/-- A `std::map<string, Room>`. -/
abbrev RoomMap := List (String × Room)

/-- Lookup `rooms.find(name)`: the room bound to `name`, `none` for `rooms.end()`. -/
def RoomMap.find (name : String) : RoomMap → Option Room
  | [] => none
  | (k, r) :: rest => if k = name then some r else RoomMap.find name rest

/-- Insertion `rooms.emplace(name, room)`: nothing is inserted when `name` is
already bound. -/
def RoomMap.emplace (name : String) (room : Room) (m : RoomMap) : RoomMap :=
  match RoomMap.find name m with
  | some _ => m
  | none => m ++ [(name, room)]

/-- Assignment through the iterator returned by `find`: the room bound to
`name` becomes `room`. -/
def RoomMap.assign (name : String) (room : Room) : RoomMap → RoomMap
  | [] => []
  | (k, r) :: rest =>
    if k = name then (k, room) :: rest else (k, r) :: RoomMap.assign name room rest

/-- The fields of `class AntFarm`. -/
structure AntFarm where
  rooms : RoomMap
  species : String
  food : Int
deriving DecidableEq, Repr

/-- Constructor `AntFarm(const string& s)`. -/
def AntFarm.new (s : String) : AntFarm := { rooms := [], species := s, food := 100 }

/-- Member function `void AntFarm::addRoom(const string& name, int buildTicks)`. -/
def AntFarm.addRoom (f : AntFarm) (name : String) (buildTicks : Int) : AntFarm :=
  { f with rooms := RoomMap.emplace name (Room.new name f.species buildTicks) f.rooms }

/-- Member function `void AntFarm::addAntToRoom(const string& roomName, shared_ptr<Ant> ant)`. -/
def AntFarm.addAntToRoom (typeidName : AntClass → String) (σ : AntHeap) (f : AntFarm)
    (roomName : String) (ant : Addr) : AntFarm × List Output :=
  match RoomMap.find roomName f.rooms with
  | some r =>
    let res := Room.addAnt typeidName σ r ant
    ({ f with rooms := RoomMap.assign roomName res.1 f.rooms }, res.2)
  | none => (f, [Output.roomNotFound roomName])

/-- Member function `void AntFarm::contributeToRoom(const string& roomName)`. -/
def AntFarm.contributeToRoom (f : AntFarm) (roomName : String) : AntFarm × List Output :=
  match RoomMap.find roomName f.rooms with
  | some r =>
    let res := Room.contributeToBuilding r
    ({ f with rooms := RoomMap.assign roomName res.1 f.rooms }, res.2)
  | none => (f, [Output.roomNotFound roomName])

/-- Member function `void AntFarm::feedAnts()`. -/
def AntFarm.feedAnts (f : AntFarm) : AntFarm × List Output :=
  if f.food ≤ 0 then
    (f, [Output.starving])
  else
    let food1 : Int := f.food - (f.rooms.length : Int)
    ({ f with food := food1 }, [Output.fed food1])

/-- A call of one of the public member functions of `AntFarm`. -/
inductive FarmOp where
  | addRoom (name : String) (buildTicks : Int)
  | addAntToRoom (roomName : String) (ant : Addr)
  | contributeToRoom (roomName : String)
  | feedAnts
deriving DecidableEq, Repr

/-- The farm after one call. -/
def AntFarm.step (typeidName : AntClass → String) (σ : AntHeap) (f : AntFarm) :
    FarmOp → AntFarm
  | .addRoom name buildTicks => f.addRoom name buildTicks
  | .addAntToRoom roomName ant => (f.addAntToRoom typeidName σ roomName ant).1
  | .contributeToRoom roomName => (f.contributeToRoom roomName).1
  | .feedAnts => f.feedAnts.1

/-- The farm after a sequence of calls, first call first. -/
def AntFarm.run (typeidName : AntClass → String) (σ : AntHeap) (f : AntFarm)
    (ops : List FarmOp) : AntFarm :=
  ops.foldl (AntFarm.step typeidName σ) f

/-- One round of the driver of the end-to-end scenario: `feedAnts()` followed
by `contributeToRoom(roomName)`. -/
def AntFarm.round (roomName : String) (f : AntFarm) : AntFarm :=
  (f.feedAnts.1.contributeToRoom roomName).1

/-- The farm objects of the program, by address. -/
abbrev FarmHeap := Addr → AntFarm

/-- Whether the process is still running or has called `exit(code)`. -/
inductive Status where
  | running
  | exited (code : Int)
deriving DecidableEq, Repr

/-- The field of `class SimulationManager`: a `vector<shared_ptr<AntFarm>>`,
`none` standing for a null pointer. -/
structure SimulationManager where
  antFarms : List (Option Addr)
deriving DecidableEq, Repr

/-- The implicitly defined default constructor of `SimulationManager`. -/
def SimulationManager.new : SimulationManager := { antFarms := [] }

/-- Member function `void addAntFarm(shared_ptr<AntFarm> farm)`. -/
def SimulationManager.addAntFarm (m : SimulationManager) (farm : Option Addr) :
    SimulationManager :=
  { m with antFarms := m.antFarms ++ [farm] }

/-- Member function `void checkActiveColonies()`. -/
def SimulationManager.checkActiveColonies (m : SimulationManager) : List Output × Status :=
  let activeColonies : Int := (m.antFarms.countP (fun farm => farm.isSome) : Nat)
  if activeColonies ≤ 1 then
    ([Output.simulationEnds], Status.exited 0)
  else
    ([], Status.running)

/-- The loop `for (auto& farm : antFarms) farm->feedAnts();`.  Calling a member
function through a null pointer has no defined behaviour: `none`. -/
def SimulationManager.feedAll : FarmHeap → List (Option Addr) → Option (FarmHeap × List Output)
  | σ, [] => some (σ, [])
  | _, none :: _ => none
  | σ, some a :: rest =>
    let res := (σ a).feedAnts
    match SimulationManager.feedAll (Function.update σ a res.1) rest with
    | some (σ1, outs) => some (σ1, res.2 ++ outs)
    | none => none

/-- Member function `void simulateTick()`. -/
def SimulationManager.simulateTick (m : SimulationManager) (σ : FarmHeap) :
    Option (FarmHeap × List Output × Status) :=
  match SimulationManager.feedAll σ m.antFarms with
  | some (σ1, outs) =>
    let res := m.checkActiveColonies
    some (σ1, outs ++ res.1, res.2)
  | none => none

/-- The ant objects `main` allocates: the `WorkerAnt` at address 0 and the
`SoldierAnt` at address 1. -/
def main.ants : AntHeap := fun a => if a = 0 then WorkerAnt else SoldierAnt

/-- The object `farm1` of `main` once `addRoom` and `addAntToRoom` have run. -/
def main.farm1 (typeidName : AntClass → String) : AntFarm × List Output :=
  ((AntFarm.new "RedAnts").addRoom "Room1" 5).addAntToRoom typeidName main.ants "Room1" 0

/-- The object `farm2` of `main` once `addRoom` and `addAntToRoom` have run. -/
def main.farm2 (typeidName : AntClass → String) : AntFarm × List Output :=
  ((AntFarm.new "BlackAnts").addRoom "Room2" 5).addAntToRoom typeidName main.ants "Room2" 1

/-- The farm objects of `main`: `farm1` at address 0 and `farm2` at address 1. -/
def main.farms (typeidName : AntClass → String) : FarmHeap :=
  fun a => if a = 0 then (main.farm1 typeidName).1 else (main.farm2 typeidName).1

/-- The object `manager` of `main` once both farms are registered. -/
def main.manager : SimulationManager :=
  (SimulationManager.new.addAntFarm (some 0)).addAntFarm (some 1)

/-- The loop `for (int i = 0; i < 10; ++i)` of `main`, with `n` iterations left
and `i` the loop variable.  It stops at once when a tick calls `exit`; the
status `running` in the result says that every iteration ran. -/
def main.loop (m : SimulationManager) : Nat → Int → FarmHeap →
    Option (FarmHeap × List Output × Status)
  | 0, _, σ => some (σ, [], Status.running)
  | n + 1, i, σ =>
    match m.simulateTick σ with
    | none => none
    | some (σ1, outs, Status.exited code) =>
      some (σ1, Output.tick (i + 1) :: outs, Status.exited code)
    | some (σ1, outs, Status.running) =>
      match main.loop m n (i + 1) σ1 with
      | none => none
      | some (σ2, outs2, st) => some (σ2, Output.tick (i + 1) :: outs ++ outs2, st)

/-- The function `main`: the farm heap, everything written and the status when
the process ends. -/
def main (typeidName : AntClass → String) : Option (FarmHeap × List Output × Status) :=
  match main.loop main.manager 10 0 (main.farms typeidName) with
  | none => none
  | some (σ, outs, st) =>
    some (σ, (main.farm1 typeidName).2 ++ (main.farm2 typeidName).2 ++ outs, st)

/-- A heap holding a fresh `SoldierAnt` at address 0 and a fresh `WorkerAnt` at
every other address. -/
def soldierWorkerHeap : AntHeap := fun a => if a = 0 then SoldierAnt else WorkerAnt

/-- A room already tagged with the Itanium name of `WorkerAnt` and holding the
worker at address 1 of `soldierWorkerHeap`. -/
def workerRoom : Room :=
  { name := "Nursery", species := "9WorkerAnt", ants := [1], underConstruction := true,
    buildProgress := 2, requiredTicks := 5 }

/-- The farm after `j` rounds on the room `roomName`. -/
def AntFarm.rounds (roomName : String) (j : Nat) (f : AntFarm) : AntFarm :=
  (AntFarm.round roomName)^[j] f

/-- Three calls of `addRoom` followed by thirty-four calls of `feedAnts`. -/
def threeRoomsFedOps : List FarmOp :=
  [FarmOp.addRoom "A" 1, FarmOp.addRoom "B" 1, FarmOp.addRoom "C" 1] ++
    List.replicate 34 FarmOp.feedAnts

/-- A manager in which only the farm at address 0 is registered. -/
def oneFarmManager : SimulationManager := SimulationManager.new.addAntFarm (some 0)

/-- A call of one of the state-changing member functions of `Room`. -/
inductive RoomOp where
  | addAnt (ant : Addr)
  | contributeToBuilding
deriving DecidableEq, Repr

/-- The room after one call. -/
def Room.step (typeidName : AntClass → String) (σ : AntHeap) (r : Room) : RoomOp → Room
  | .addAnt ant => (r.addAnt typeidName σ ant).1
  | .contributeToBuilding => r.contributeToBuilding.1

/-- The room after a sequence of calls, first call first. -/
def Room.run (typeidName : AntClass → String) (σ : AntHeap) (r : Room)
    (ops : List RoomOp) : Room :=
  ops.foldl (Room.step typeidName σ) r

/-- A worker accepted, a soldier offered, one contribution, a second worker
accepted (addresses of `soldierWorkerHeap`). -/
def mixedRoomOps : List RoomOp :=
  [RoomOp.addAnt 1, RoomOp.addAnt 0, RoomOp.contributeToBuilding, RoomOp.addAnt 2]

/-- A heap holding a `SoldierAnt` on which `rest()` has been called at address 0
and a fresh `WorkerAnt` at every other address. -/
def restingSoldierHeap : AntHeap := fun a => if a = 0 then SoldierAnt.rest else WorkerAnt

/-- A call of one of the public member functions of `SimulationManager`. -/
inductive ManagerOp where
  | addAntFarm (farm : Option Addr)
  | simulateTick
  | checkActiveColonies
deriving DecidableEq, Repr

/-- The running program as far as the manager is concerned: the manager
object, the farm objects and whether `exit` has been called. -/
structure Simulation where
  manager : SimulationManager
  farms : FarmHeap
  status : Status

/-- One call on the manager.  Once `exit` has been called nothing runs any
more; `none` when the call has no defined behaviour. -/
def Simulation.step (s : Simulation) (op : ManagerOp) : Option Simulation :=
  match s.status with
  | Status.exited _ => some s
  | Status.running =>
    match op with
    | .addAntFarm farm => some { s with manager := s.manager.addAntFarm farm }
    | .simulateTick =>
      match s.manager.simulateTick s.farms with
      | none => none
      | some (σ1, _, st) => some { s with farms := σ1, status := st }
    | .checkActiveColonies => some { s with status := s.manager.checkActiveColonies.2 }

/-- A sequence of calls on the manager, first call first. -/
def Simulation.run : Simulation → List ManagerOp → Option Simulation
  | s, [] => some s
  | s, op :: rest =>
    match s.step op with
    | none => none
    | some s1 => Simulation.run s1 rest

/-- The program `main` at the start of its loop. -/
def main.simulation (typeidName : AntClass → String) : Simulation :=
  { manager := main.manager, farms := main.farms typeidName, status := Status.running }

/-- A heap with ants whose health is close to the greatest `int`: a `QueenAnt`
with health 2147483635 at address 0, a fresh `SoldierAnt` at address 1, a
`QueenAnt` with health 2147483645 at address 2 and a fresh `WorkerAnt` at every
other address. -/
def nearMaxHeap : AntHeap := fun a =>
  if a = 0 then { QueenAnt with health := 2147483635 }
  else if a = 1 then SoldierAnt
  else if a = 2 then { QueenAnt with health := 2147483645 }
  else WorkerAnt

/-- A manager in which the farm at address 0 and then a null pointer have been
registered. -/
def nullManager : SimulationManager :=
  (SimulationManager.new.addAntFarm (some 0)).addAntFarm none

/-! ## Ants -/

/-- The strength a class fixes is positive. -/
lemma AntClass.strength_pos (k : AntClass) : 0 < k.strength := by
  cases k <;> decide

/-- For a strength fixed by a class, the truncating division by two of the
program is the floor of the half. -/
lemma Ant.tdiv_two_eq_fdiv (a : Ant) (h : a.StrengthFixed) :
    Int.tdiv a.strength 2 = Int.fdiv a.strength 2 := by
  have hpos : 0 ≤ a.strength := by
    rw [h]; exact le_of_lt (AntClass.strength_pos a.kind)
  rw [Int.tdiv_eq_ediv hpos (by decide), Int.fdiv_eq_ediv _ (by decide)]

/-- Half of a strength fixed by a class, rounded down, is positive. -/
lemma Ant.fdiv_two_pos (a : Ant) (h : a.StrengthFixed) : 0 < Int.fdiv a.strength 2 := by
  unfold Ant.StrengthFixed at h
  rw [h]
  cases a.kind <;> decide

/-- A value of `int` is stored unchanged. -/
lemma wrapInt32_of_inRange (x : Int) (h1 : INT_MIN ≤ x) (h2 : x ≤ INT_MAX) :
    wrapInt32 x = x := by
  simp only [INT_MIN, INT_MAX] at h1 h2
  unfold wrapInt32
  omega

/-- The health of a winning caller when the sum does not overflow. -/
lemma Ant.battle_health_of_win (σ : AntHeap) (a b : Addr) (hb : (σ b).StrengthFixed)
    (h : (σ a).strength > (σ b).strength) (h1 : INT_MIN ≤ (σ a).health)
    (h2 : (σ a).health + Int.fdiv (σ b).strength 2 ≤ INT_MAX) :
    ((Ant.battle σ a b).2 a).health = (σ a).health + Int.fdiv (σ b).strength 2 := by
  have pb := Ant.fdiv_two_pos _ hb
  simp only [Ant.battle, h, if_true, Function.update_same, Ant.tdiv_two_eq_fdiv _ hb]
  exact wrapInt32_of_inRange _ (by omega) h2

/-- The health of the opponent of a caller that is not stronger, when the sum
does not overflow. -/
lemma Ant.battle_health_of_loss (σ : AntHeap) (a b : Addr) (ha : (σ a).StrengthFixed)
    (h : (σ a).strength ≤ (σ b).strength) (h1 : INT_MIN ≤ (σ b).health)
    (h2 : (σ b).health + Int.fdiv (σ a).strength 2 ≤ INT_MAX) :
    ((Ant.battle σ a b).2 b).health = (σ b).health + Int.fdiv (σ a).strength 2 := by
  have pa := Ant.fdiv_two_pos _ ha
  have hn : ¬ (σ a).strength > (σ b).strength := not_lt.mpr h
  simp only [Ant.battle, hn, if_false, Function.update_same, Ant.tdiv_two_eq_fdiv _ ha]
  exact wrapInt32_of_inRange _ (by omega) h2

/-- One more call of `contributeToBuilding` after `k` calls. -/
lemma Room.contributeTimes_succ (k : Nat) (r : Room) :
    Room.contributeTimes (k + 1) r =
      (Room.contributeToBuilding (Room.contributeTimes k r)).1 := by
  unfold Room.contributeTimes
  exact Function.iterate_succ_apply' _ k r

/-- The state of a room built with a target of at least one after `k` calls of
`contributeToBuilding`: the progress is `k` capped at the target and the room
is under construction exactly while `k` is below the target. -/
lemma Room.contributeTimes_new (name species : String) (n : Int) (hn : 1 ≤ n) (k : Nat) :
    Room.contributeTimes k (Room.new name species n) =
      { name := name, species := species, ants := [],
        underConstruction := decide ((k : Int) < n),
        buildProgress := min (k : Int) n, requiredTicks := n } := by
  induction k with
  | zero =>
    have h0 : (0 : Int) < n := by omega
    simp [Room.contributeTimes, Room.new, h0, le_of_lt h0]
  | succ k ih =>
    rw [Room.contributeTimes_succ, ih]
    by_cases hk : (k : Int) < n
    · by_cases hk1 : (k : Int) + 1 < n
      · have e1 : min (k : Int) n = k := min_eq_left (le_of_lt hk)
        have e2 : min ((k : Int) + 1) n = k + 1 := min_eq_left (le_of_lt hk1)
        have e3 : ¬ (n ≤ (k : Int) + 1) := not_le.mpr hk1
        simp [Room.contributeToBuilding, hk, hk1, e1, e2, e3]
      · have e1 : min (k : Int) n = k := min_eq_left (le_of_lt hk)
        have e3 : n ≤ (k : Int) + 1 := not_lt.mp hk1
        have e2 : min ((k : Int) + 1) n = n := min_eq_right e3
        have e4 : (k : Int) + 1 = n := by omega
        simp [Room.contributeToBuilding, hk, hk1, e1, e2, e3, e4]
    · have hk1 : ¬ ((k : Int) + 1 < n) := by omega
      have e1 : min (k : Int) n = n := min_eq_right (not_lt.mp hk)
      have e2 : min ((k : Int) + 1) n = n := min_eq_right (by omega)
      simp [Room.contributeToBuilding, hk, hk1, e1, e2]

/-- A room built with a target of at least one is complete after `k` calls of
`contributeToBuilding` exactly when the target is at most `k`. -/
lemma Room.isComplete_contributeTimes_new (name species : String) (n : Int) (hn : 1 ≤ n)
    (k : Nat) :
    (Room.contributeTimes k (Room.new name species n)).isComplete = true ↔ n ≤ (k : Int) := by
  rw [Room.contributeTimes_new name species n hn k]
  simp [Room.isComplete]

/-- C3: for a room constructed with a target `n` of at least one, after `k`
calls of `contributeToBuilding` the room is complete exactly when `n ≤ k`, and
call number `k + 1` writes the completion line exactly when `k + 1 = n` (and
writes nothing otherwise), so the line is written by call `n` and by no other
call. -/
theorem contribute_completes_at_target (name species : String) (n : Int) (hn : 1 ≤ n)
    (k : Nat) :
    ((Room.contributeTimes k (Room.new name species n)).isComplete = true ↔ n ≤ (k : Int)) ∧
    (Room.contributeToBuilding (Room.contributeTimes k (Room.new name species n))).2 =
      (if (k : Int) + 1 = n then [Output.roomCompleted name] else []) := by
  rw [Room.contributeTimes_new name species n hn k]
  constructor
  · simp [Room.isComplete]
  · by_cases hk : (k : Int) < n
    · by_cases hk1 : (k : Int) + 1 = n
      · have e1 : min (k : Int) n = k := min_eq_left (le_of_lt hk)
        simp [Room.contributeToBuilding, hk, hk1, e1]
      · have e1 : min (k : Int) n = k := min_eq_left (le_of_lt hk)
        have e3 : ¬ (n ≤ (k : Int) + 1) := by omega
        simp [Room.contributeToBuilding, hk, hk1, e1, e3]
    · have hk1 : ¬ ((k : Int) + 1 = n) := by omega
      simp [Room.contributeToBuilding, hk, hk1]

/-- C3 at a concrete input: with target 5 the room is incomplete after 4 calls
and the fifth call writes the completion line. -/
theorem contribute_completes_at_target_witness :
    (1 : Int) ≤ 5 ∧
    (Room.contributeTimes 4 (Room.new "Room1" "RedAnts" 5)).isComplete = false ∧
    (Room.contributeToBuilding (Room.contributeTimes 4 (Room.new "Room1" "RedAnts" 5))).2 =
      [Output.roomCompleted "Room1"] := by
  have h := contribute_completes_at_target "Room1" "RedAnts" 5 (by decide) 4
  refine ⟨by decide, ?_, ?_⟩
  · cases hc : (Room.contributeTimes 4 (Room.new "Room1" "RedAnts" 5)).isComplete with
    | false => rfl
    | true => exact absurd (h.1.mp hc) (by decide)
  · simpa using h.2

/-- The rejecting path of `addAnt`: a non-empty tag different from the type
name of the ant. -/
lemma Room.addAnt_of_tag_ne (typeidName : AntClass → String) (σ : AntHeap)
    (r : Room) (ant : Addr) (htag : r.species ≠ "")
    (hdiff : typeidName (σ ant).kind ≠ r.species) :
    Room.addAnt typeidName σ r ant = (r, [Output.speciesMismatch]) := by
  have he : ¬ (r.species.isEmpty = true) := fun h => htag ((String.isEmpty_iff _).mp h)
  simp [Room.addAnt, he, hdiff]

/-- C4: when the room already has a non-empty species tag and the type name of
the ant differs from it, `addAnt` writes the mismatch error and returns the
room as it was (same ants, tag, name, construction flag, progress, target). -/
theorem addAnt_other_species_rejected (typeidName : AntClass → String) (σ : AntHeap)
    (r : Room) (ant : Addr) (htag : r.species ≠ "")
    (hdiff : typeidName (σ ant).kind ≠ r.species) :
    Room.addAnt typeidName σ r ant = (r, [Output.speciesMismatch]) :=
  Room.addAnt_of_tag_ne typeidName σ r ant htag hdiff

/-- C4 at a concrete input: a Soldier offered to a room tagged for Workers is
rejected and the room is returned unchanged. -/
theorem addAnt_other_species_rejected_witness :
    (workerRoom.species ≠ "" ∧ itaniumName (soldierWorkerHeap 0).kind ≠ workerRoom.species) ∧
    Room.addAnt itaniumName soldierWorkerHeap workerRoom 0 =
      (workerRoom, [Output.speciesMismatch]) :=
  ⟨⟨by decide, by decide⟩,
    addAnt_other_species_rejected itaniumName soldierWorkerHeap workerRoom 0
      (by decide) (by decide)⟩

/-! ## Ant farms -/

/-- The lookup `find` fails exactly for the names that are not keys. -/
lemma RoomMap.find_eq_none_iff (name : String) (m : RoomMap) :
    RoomMap.find name m = none ↔ name ∉ m.map Prod.fst := by
  induction m with
  | nil => simp [RoomMap.find]
  | cons p rest ih =>
    obtain ⟨k, r⟩ := p
    by_cases hk : k = name
    · simp [RoomMap.find, hk]
    · have hk2 : ¬ (name = k) := fun e => hk e.symm
      simp [RoomMap.find, hk, hk2, ih]

/-- After `emplace` of an unbound name, `find` returns the new room. -/
lemma RoomMap.find_emplace_new (name : String) (room : Room) (m : RoomMap)
    (h : RoomMap.find name m = none) :
    RoomMap.find name (RoomMap.emplace name room m) = some room := by
  unfold RoomMap.emplace
  rw [h]
  simp only
  induction m with
  | nil => simp [RoomMap.find]
  | cons p rest ih =>
    obtain ⟨k, r⟩ := p
    by_cases hk : k = name
    · simp [RoomMap.find, hk] at h
    · simp only [RoomMap.find, hk, if_false] at h
      simp [RoomMap.find, hk, ih h]

/-- Assigning to a name the room it is already bound to changes nothing. -/
lemma RoomMap.assign_same (name : String) (room : Room) (m : RoomMap)
    (h : RoomMap.find name m = some room) : RoomMap.assign name room m = m := by
  induction m with
  | nil => rfl
  | cons p rest ih =>
    obtain ⟨k, r⟩ := p
    by_cases hk : k = name
    · simp only [RoomMap.find, hk, if_true, Option.some.injEq] at h
      simp [RoomMap.assign, hk, h]
    · simp only [RoomMap.find, hk, if_false] at h
      simp [RoomMap.assign, hk, ih h]

/-- Assignment through an iterator keeps the number of rooms. -/
lemma RoomMap.length_assign (name : String) (room : Room) (m : RoomMap) :
    (RoomMap.assign name room m).length = m.length := by
  induction m with
  | nil => rfl
  | cons p rest ih =>
    obtain ⟨k, r⟩ := p
    by_cases hk : k = name
    · simp [RoomMap.assign, hk]
    · simp [RoomMap.assign, hk, ih]

/-- The insertion `emplace` never lowers the number of rooms. -/
lemma RoomMap.length_le_length_emplace (name : String) (room : Room) (m : RoomMap) :
    m.length ≤ (RoomMap.emplace name room m).length := by
  unfold RoomMap.emplace
  cases RoomMap.find name m <;> simp

/-- C5, what the code does: in a farm with a non-empty species tag that is not
the type name of the ant, a room just created by `addRoom` under a new name
carries the tag of the farm, so `addAntToRoom` writes the mismatch error and
leaves the farm as it was: the room has no ant and keeps the tag of the farm. -/
theorem addAntToRoom_new_room_rejected (typeidName : AntClass → String) (σ : AntHeap)
    (f : AntFarm) (name : String) (n : Int) (ant : Addr)
    (hnew : name ∉ f.rooms.map Prod.fst) (htag : f.species ≠ "")
    (hdiff : typeidName (σ ant).kind ≠ f.species) :
    (f.addRoom name n).addAntToRoom typeidName σ name ant =
      (f.addRoom name n, [Output.speciesMismatch]) ∧
    RoomMap.find name (f.addRoom name n).rooms = some (Room.new name f.species n) ∧
    (Room.new name f.species n).ants = [] := by
  have hfind : RoomMap.find name (f.addRoom name n).rooms =
      some (Room.new name f.species n) :=
    RoomMap.find_emplace_new name _ f.rooms ((RoomMap.find_eq_none_iff name f.rooms).mpr hnew)
  refine ⟨?_, hfind, rfl⟩
  have hrej := Room.addAnt_of_tag_ne typeidName σ (Room.new name f.species n) ant
    htag hdiff
  unfold AntFarm.addAntToRoom
  rw [hfind]
  simp only [hrej]
  rw [RoomMap.assign_same name _ _ hfind]

/-- C5 at the input of `main`: the `WorkerAnt` offered to "Room1" of the farm
"RedAnts" is rejected, the room stays empty and keeps the tag "RedAnts". -/
theorem addAntToRoom_new_room_rejected_witness :
    main.farm1 itaniumName =
      ((AntFarm.new "RedAnts").addRoom "Room1" 5, [Output.speciesMismatch]) ∧
    RoomMap.find "Room1" (main.farm1 itaniumName).1.rooms =
      some (Room.new "Room1" "RedAnts" 5) ∧
    (Room.new "Room1" "RedAnts" 5).ants = [] := by
  have h := addAntToRoom_new_room_rejected itaniumName main.ants (AntFarm.new "RedAnts")
    "Room1" 5 0 (by decide) (by decide) (by decide)
  refine ⟨h.1, ?_, h.2.2⟩
  have e : (main.farm1 itaniumName).1 = (AntFarm.new "RedAnts").addRoom "Room1" 5 :=
    congrArg Prod.fst h.1
  rw [e]
  exact h.2.1

/-- C6: `feedAnts` on a farm with `food ≤ 0` writes the starvation line and
returns the farm unchanged; on a farm with `food > 0` it lowers `food` by the
number of rooms, writes that remaining value and changes neither the rooms nor
the species; with no room the food is unchanged in both cases. -/
theorem feedAnts_spec (f : AntFarm) :
    (f.food ≤ 0 → f.feedAnts = (f, [Output.starving])) ∧
    (0 < f.food →
      f.feedAnts.1.food = f.food - (f.rooms.length : Int) ∧
      f.feedAnts.1.rooms = f.rooms ∧ f.feedAnts.1.species = f.species ∧
      f.feedAnts.2 = [Output.fed (f.food - (f.rooms.length : Int))]) ∧
    (f.rooms = [] → f.feedAnts.1 = f) := by
  refine ⟨?_, ?_, ?_⟩
  · intro h
    simp [AntFarm.feedAnts, h]
  · intro h
    have hn : ¬ (f.food ≤ 0) := not_le.mpr h
    simp [AntFarm.feedAnts, hn]
  · intro h
    obtain ⟨rooms, species, food⟩ := f
    simp only at h
    subst h
    by_cases hf : food ≤ 0
    · simp [AntFarm.feedAnts, hf]
    · simp [AntFarm.feedAnts, hf]

/-- Every call of `AntFarm` keeps `food` above the negated number of rooms. -/
lemma AntFarm.step_food_bound (typeidName : AntClass → String) (σ : AntHeap) (f : AntFarm)
    (op : FarmOp) (h : 0 < f.food + (f.rooms.length : Int)) :
    0 < (f.step typeidName σ op).food + ((f.step typeidName σ op).rooms.length : Int) := by
  cases op with
  | addRoom name buildTicks =>
    have hl := RoomMap.length_le_length_emplace name (Room.new name f.species buildTicks) f.rooms
    simp only [AntFarm.step, AntFarm.addRoom]
    omega
  | addAntToRoom roomName ant =>
    simp only [AntFarm.step, AntFarm.addAntToRoom]
    cases RoomMap.find roomName f.rooms with
    | none => simpa using h
    | some r => simpa [RoomMap.length_assign] using h
  | contributeToRoom roomName =>
    simp only [AntFarm.step, AntFarm.contributeToRoom]
    cases RoomMap.find roomName f.rooms with
    | none => simpa using h
    | some r => simpa [RoomMap.length_assign] using h
  | feedAnts =>
    simp only [AntFarm.step, AntFarm.feedAnts]
    by_cases hf : f.food ≤ 0
    · simpa [hf] using h
    · simp only [hf, if_false]
      omega

/-- The bound of `step_food_bound` along a sequence of calls. -/
lemma AntFarm.run_food_bound (typeidName : AntClass → String) (σ : AntHeap)
    (ops : List FarmOp) (f : AntFarm) (h : 0 < f.food + (f.rooms.length : Int)) :
    0 < (f.run typeidName σ ops).food + ((f.run typeidName σ ops).rooms.length : Int) := by
  induction ops generalizing f with
  | nil => simpa [AntFarm.run] using h
  | cons op rest ih =>
    have hstep := AntFarm.step_food_bound typeidName σ f op h
    simpa [AntFarm.run] using ih (f.step typeidName σ op) hstep

set_option maxRecDepth 8000 in
/-- C7 as stated fails: a farm given three rooms and then fed thirty-four
times ends with `food = -2`. -/
theorem food_negative_reachable :
    (AntFarm.run itaniumName main.ants (AntFarm.new "RedAnts") threeRoomsFedOps).food = -2 ∧
    (AntFarm.run itaniumName main.ants (AntFarm.new "RedAnts") threeRoomsFedOps).rooms.length
      = 3 := by
  decide

/-- C7 as amended: in every farm reached from construction by calls of
`addRoom`, `addAntToRoom`, `contributeToRoom` and `feedAnts`, `food` is at
least one minus the number of rooms, and `feedAnts` does not change a `food`
that is already at most zero. -/
theorem food_above_negated_room_count (typeidName : AntClass → String) (σ : AntHeap)
    (s : String) (ops : List FarmOp) :
    1 - (((AntFarm.new s).run typeidName σ ops).rooms.length : Int) ≤
      ((AntFarm.new s).run typeidName σ ops).food ∧
    (((AntFarm.new s).run typeidName σ ops).food ≤ 0 →
      ((AntFarm.new s).run typeidName σ ops).feedAnts.1.food =
        ((AntFarm.new s).run typeidName σ ops).food) := by
  have h := AntFarm.run_food_bound typeidName σ ops (AntFarm.new s) (by simp [AntFarm.new])
  refine ⟨by omega, ?_⟩
  intro hf
  simp [AntFarm.feedAnts, hf]

/-- C8: for a name that is not a key of the room map, `addAntToRoom` and
`contributeToRoom` both write the not-found error for that name and return the
farm unchanged (same rooms, species and food). -/
theorem unknown_room_rejected (typeidName : AntClass → String) (σ : AntHeap) (f : AntFarm)
    (roomName : String) (ant : Addr) (hnew : roomName ∉ f.rooms.map Prod.fst) :
    f.addAntToRoom typeidName σ roomName ant = (f, [Output.roomNotFound roomName]) ∧
    f.contributeToRoom roomName = (f, [Output.roomNotFound roomName]) := by
  have hfind := (RoomMap.find_eq_none_iff roomName f.rooms).mpr hnew
  simp [AntFarm.addAntToRoom, AntFarm.contributeToRoom, hfind]

/-- C8 at a concrete input: the farm "RedAnts" of `main` has no room "Room2". -/
theorem unknown_room_rejected_witness :
    "Room2" ∉ (main.farm1 itaniumName).1.rooms.map Prod.fst ∧
    (main.farm1 itaniumName).1.addAntToRoom itaniumName main.ants "Room2" 1 =
      ((main.farm1 itaniumName).1, [Output.roomNotFound "Room2"]) ∧
    (main.farm1 itaniumName).1.contributeToRoom "Room2" =
      ((main.farm1 itaniumName).1, [Output.roomNotFound "Room2"]) :=
  ⟨by decide,
    unknown_room_rejected itaniumName main.ants (main.farm1 itaniumName).1 "Room2" 1
      (by decide)⟩

/-- The farm with one room of target `n` between 1 and 100 after `j ≤ n`
rounds: one unit of food is gone for each round and the room has received `j`
calls of `contributeToBuilding`. -/
lemma AntFarm.rounds_one_room (s name : String) (n : Int) (h100 : n ≤ 100) (j : Nat)
    (hj : (j : Int) ≤ n) :
    AntFarm.rounds name j ((AntFarm.new s).addRoom name n) =
      { rooms := [(name, Room.contributeTimes j (Room.new name s n))], species := s,
        food := 100 - (j : Int) } := by
  induction j with
  | zero =>
    simp [AntFarm.rounds, AntFarm.new, AntFarm.addRoom, RoomMap.emplace, RoomMap.find,
      Room.contributeTimes]
  | succ j ih =>
    have hj2 : (j : Int) ≤ n := by push_cast at hj; omega
    have hfood : ¬ ((100 : Int) - (j : Int) ≤ 0) := by push_cast at hj; omega
    have hr : AntFarm.rounds name (j + 1) ((AntFarm.new s).addRoom name n) =
        AntFarm.round name (AntFarm.rounds name j ((AntFarm.new s).addRoom name n)) := by
      unfold AntFarm.rounds
      exact Function.iterate_succ_apply' _ j _
    rw [hr, ih hj2, Room.contributeTimes_succ]
    simp only [AntFarm.round, AntFarm.feedAnts, hfood, if_false, AntFarm.contributeToRoom,
      RoomMap.find, if_true, RoomMap.assign, List.length_singleton]
    push_cast
    congr 1
    ring

/-- C10: in a fresh farm with one room of target `n`, `1 ≤ n ≤ 100`, after
`j ≤ n` rounds of `feedAnts` then `contributeToRoom` the food is `100 - j`, the
room is still the only one, and it is complete exactly when `j = n`: not
complete for every `j < n` and complete after `n` rounds, with food `100 - n`. -/
theorem rounds_complete_at_target (s name : String) (n : Int) (h1 : 1 ≤ n) (h100 : n ≤ 100)
    (j : Nat) (hj : (j : Int) ≤ n) :
    (AntFarm.rounds name j ((AntFarm.new s).addRoom name n)).food = 100 - (j : Int) ∧
    ∃ r : Room, (AntFarm.rounds name j ((AntFarm.new s).addRoom name n)).rooms = [(name, r)] ∧
      (r.isComplete = true ↔ (j : Int) = n) := by
  rw [AntFarm.rounds_one_room s name n h100 j hj]
  refine ⟨rfl, _, rfl, ?_⟩
  rw [Room.isComplete_contributeTimes_new name s n h1 j]
  omega

/-- C10, end-to-end scenario: farm "RedAnts", room "Room1" with target 5; after
5 rounds the room is complete and the food is 95, after 4 rounds the room is
not complete and the food is 96. -/
theorem rounds_complete_at_target_witness :
    ((AntFarm.rounds "Room1" 5 ((AntFarm.new "RedAnts").addRoom "Room1" 5)).food = 95 ∧
      ∃ r : Room, (AntFarm.rounds "Room1" 5 ((AntFarm.new "RedAnts").addRoom "Room1" 5)).rooms
          = [("Room1", r)] ∧ r.isComplete = true) ∧
    ((AntFarm.rounds "Room1" 4 ((AntFarm.new "RedAnts").addRoom "Room1" 5)).food = 96 ∧
      ∃ r : Room, (AntFarm.rounds "Room1" 4 ((AntFarm.new "RedAnts").addRoom "Room1" 5)).rooms
          = [("Room1", r)] ∧ r.isComplete = false) := by
  have h5 := rounds_complete_at_target "RedAnts" "Room1" 5 (by decide) (by decide) 5
    (by decide)
  have h4 := rounds_complete_at_target "RedAnts" "Room1" 5 (by decide) (by decide) 4
    (by decide)
  obtain ⟨f5, r5, hr5, c5⟩ := h5
  obtain ⟨f4, r4, hr4, c4⟩ := h4
  refine ⟨⟨by rw [f5]; norm_num, r5, hr5, c5.mpr (by norm_num)⟩,
    ⟨by rw [f4]; norm_num, r4, hr4, ?_⟩⟩
  cases hc : r4.isComplete with
  | false => rfl
  | true => exact absurd (c4.mp hc) (by norm_num)

/-! ## The simulation manager -/

/-- The lines written by feeding depend only on the farms that are fed. -/
lemma flatMap_feed_congr (refs : List Addr) (σ τ : FarmHeap)
    (h : ∀ a ∈ refs, τ a = σ a) :
    refs.flatMap (fun a => (τ a).feedAnts.2) = refs.flatMap (fun a => (σ a).feedAnts.2) := by
  induction refs with
  | nil => rfl
  | cons a rest ih =>
    have ha : τ a = σ a := h a (List.mem_cons_self a rest)
    have hrest : ∀ b ∈ rest, τ b = σ b := fun b hb => h b (List.mem_cons_of_mem a hb)
    simp [List.flatMap_cons, ha, ih hrest]

/-- The feeding loop over non-null pointers is defined; it applies `feedAnts`
to the farm at each address once for each time the address is registered, and
when the addresses are distinct it writes the line of each farm in the order
of registration. -/
lemma SimulationManager.feedAll_map_some (refs : List Addr) (σ : FarmHeap) :
    ∃ outs : List Output,
      SimulationManager.feedAll σ (refs.map some) =
        some (fun a => (fun f : AntFarm => f.feedAnts.1)^[refs.count a] (σ a), outs) ∧
      (refs.Nodup → outs = refs.flatMap (fun a => (σ a).feedAnts.2)) := by
  induction refs generalizing σ with
  | nil => exact ⟨[], by simp [SimulationManager.feedAll], fun _ => rfl⟩
  | cons a rest ih =>
    obtain ⟨outs, hrun, hout⟩ := ih (Function.update σ a (σ a).feedAnts.1)
    refine ⟨(σ a).feedAnts.2 ++ outs, ?_, ?_⟩
    · simp only [List.map_cons, SimulationManager.feedAll, hrun]
      congr 2
      funext b
      by_cases hb : b = a
      · subst hb
        simp [List.count_cons_self, Function.iterate_succ_apply]
      · simp [List.count_cons_of_ne hb, Function.update_noteq hb]
    · intro hnd
      obtain ⟨hnotin, hrest⟩ := List.nodup_cons.mp hnd
      rw [hout hrest, List.flatMap_cons]
      congr 1
      apply flatMap_feed_congr
      intro b hb
      have hne : b ≠ a := fun e => hnotin (e ▸ hb)
      exact Function.update_noteq hne _ _

/-- The tick on registered farms: for a manager whose registered pointers are
the non-null pointers to the farms at `refs`, `simulateTick` is defined; every
farm has received `feedAnts` once for each of its registrations (all of them
before the check, also when the check calls `exit`), with distinct farms the
feeding lines appear in the order of registration, the line of
`checkActiveColonies`, if any, comes last, and the process has exited exactly
when the number of registered non-null pointers is at most one and is running
otherwise. -/
theorem simulateTick_feeds_then_checks (m : SimulationManager) (σ : FarmHeap)
    (refs : List Addr) (hm : m.antFarms = refs.map some) :
    ∃ outs : List Output,
      m.simulateTick σ =
        some (fun a => (fun f : AntFarm => f.feedAnts.1)^[refs.count a] (σ a),
          outs ++ (if m.antFarms.countP (fun farm => farm.isSome) ≤ 1
            then [Output.simulationEnds] else []),
          if m.antFarms.countP (fun farm => farm.isSome) ≤ 1
            then Status.exited 0 else Status.running) ∧
      (refs.Nodup → outs = refs.flatMap (fun a => (σ a).feedAnts.2)) := by
  obtain ⟨outs, hrun, hout⟩ := SimulationManager.feedAll_map_some refs σ
  refine ⟨outs, ?_, hout⟩
  obtain ⟨fs⟩ := m
  simp only at hm
  subst hm
  simp only [SimulationManager.simulateTick, hrun, SimulationManager.checkActiveColonies]
  by_cases hc : (List.map some refs).countP (fun farm => farm.isSome) ≤ 1
  · have hc2 : (((List.map some refs).countP (fun farm => farm.isSome) : Nat) : Int) ≤ 1 := by
      exact_mod_cast hc
    rw [if_pos hc, if_pos hc, if_pos hc2]
  · have hc2 : ¬ ((((List.map some refs).countP (fun farm => farm.isSome) : Nat) : Int) ≤ 1) := by
      intro h
      exact hc (by exact_mod_cast h)
    rw [if_neg hc, if_neg hc, if_neg hc2]

/-- The tick on the two scenarios of the specification: with the two farms of
`main` registered the first tick feeds both (each is left with food 99) and
the process stays running; with only the first farm registered the tick feeds
it, then writes the final line and exits. -/
theorem simulateTick_feeds_then_checks_witness :
    (main.manager.antFarms = [0, 1].map some ∧ oneFarmManager.antFarms = [0].map some) ∧
    (∃ σ1 : FarmHeap,
      main.manager.simulateTick (main.farms itaniumName) =
        some (σ1, [Output.fed 99, Output.fed 99], Status.running) ∧
      (σ1 0).food = 99 ∧ (σ1 1).food = 99) ∧
    (∃ σ1 : FarmHeap,
      oneFarmManager.simulateTick (main.farms itaniumName) =
        some (σ1, [Output.fed 99, Output.simulationEnds], Status.exited 0) ∧
      (σ1 0).food = 99 ∧ (σ1 1).food = 100) := by
  obtain ⟨outs2, h2, n2⟩ :=
    simulateTick_feeds_then_checks main.manager (main.farms itaniumName) [0, 1] rfl
  obtain ⟨outs1, h1, n1⟩ :=
    simulateTick_feeds_then_checks oneFarmManager (main.farms itaniumName) [0] rfl
  have e2 := n2 (by decide)
  have e1 := n1 (by decide)
  subst e2
  subst e1
  refine ⟨⟨rfl, rfl⟩,
    ⟨fun a => (fun f : AntFarm => f.feedAnts.1)^[([0, 1] : List Addr).count a]
      (main.farms itaniumName a), h2.trans ?_, by decide, by decide⟩,
    ⟨fun a => (fun f : AntFarm => f.feedAnts.1)^[([0] : List Addr).count a]
      (main.farms itaniumName a), h1.trans ?_, by decide, by decide⟩⟩
  · have eo : ([0, 1] : List Addr).flatMap (fun a => ((main.farms itaniumName) a).feedAnts.2) ++
        (if main.manager.antFarms.countP (fun farm => farm.isSome) ≤ 1
          then [Output.simulationEnds] else []) = [Output.fed 99, Output.fed 99] := by decide
    have es : (if main.manager.antFarms.countP (fun farm => farm.isSome) ≤ 1
        then Status.exited 0 else Status.running) = Status.running := by decide
    rw [eo, es]
  · have eo : ([0] : List Addr).flatMap (fun a => ((main.farms itaniumName) a).feedAnts.2) ++
        (if oneFarmManager.antFarms.countP (fun farm => farm.isSome) ≤ 1
          then [Output.simulationEnds] else []) = [Output.fed 99, Output.simulationEnds] := by
      decide
    have es : (if oneFarmManager.antFarms.countP (fun farm => farm.isSome) ≤ 1
        then Status.exited 0 else Status.running) = Status.exited 0 := by decide
    rw [eo, es]

/-- The feeding loop has no defined behaviour when a null pointer is among the
registered ones. -/
lemma SimulationManager.feedAll_of_null (l : List (Option Addr)) (σ : FarmHeap)
    (h : none ∈ l) : SimulationManager.feedAll σ l = none := by
  induction l generalizing σ with
  | nil => simp at h
  | cons p rest ih =>
    cases p with
    | none => rfl
    | some a =>
      have hrest : none ∈ rest := by simpa using h
      simp [SimulationManager.feedAll, ih _ hrest]

/-- The loop of `main` processes no further tick once a tick has called
`exit`. -/
lemma main.loop_stops_on_exit (m : SimulationManager) (n : Nat) (i : Int) (σ σ1 : FarmHeap)
    (outs : List Output) (code : Int)
    (h : m.simulateTick σ = some (σ1, outs, Status.exited code)) :
    main.loop m (n + 1) i σ = some (σ1, Output.tick (i + 1) :: outs, Status.exited code) := by
  simp [main.loop, h]

/-- C9, what the code does when a null pointer is registered: the feeding loop
of `simulateTick` calls `feedAnts` through every registered pointer without
the test that `checkActiveColonies` makes, so the tick has no defined
behaviour (no feeding result and no status), whatever the number of non-null
pointers is. -/
theorem simulateTick_undefined_of_null (m : SimulationManager) (σ : FarmHeap)
    (h : none ∈ m.antFarms) : m.simulateTick σ = none := by
  simp [SimulationManager.simulateTick, SimulationManager.feedAll_of_null m.antFarms σ h]

/-- C9 at the failing input: after `addAntFarm(farm)` and `addAntFarm(nullptr)`
one pointer is not null, so `checkActiveColonies` alone would exit, but
`simulateTick` has no defined behaviour. -/
theorem simulateTick_undefined_of_null_witness :
    nullManager.antFarms = [some 0, none] ∧
    nullManager.antFarms.countP (fun farm => farm.isSome) = 1 ∧
    nullManager.checkActiveColonies = ([Output.simulationEnds], Status.exited 0) ∧
    nullManager.simulateTick (main.farms itaniumName) = none :=
  ⟨rfl, by decide, by decide,
    simulateTick_undefined_of_null nullManager (main.farms itaniumName) (by decide)⟩

/-! ## Room invariants -/

/-- One call keeps every ant of the room of the species of the tag, when no
class has an empty type name. -/
lemma Room.step_homogeneous (typeidName : AntClass → String) (σ : AntHeap)
    (hne : ∀ k, typeidName k ≠ "") (r : Room) (op : RoomOp)
    (h : ∀ a ∈ r.ants, typeidName (σ a).kind = r.species) :
    ∀ a ∈ (r.step typeidName σ op).ants,
      typeidName (σ a).kind = (r.step typeidName σ op).species := by
  cases op with
  | addAnt ant =>
    simp only [Room.step, Room.addAnt]
    by_cases he : r.species.isEmpty = true
    · have hs : r.species = "" := (String.isEmpty_iff _).mp he
      simp only [he, if_true]
      intro a ha
      simp only [List.mem_append, List.mem_singleton] at ha
      rcases ha with ha | ha
      · exact absurd ((h a ha).trans hs) (hne _)
      · rw [ha]
    · simp only [he]
      by_cases hsame : typeidName (σ ant).kind = r.species
      · intro a ha
        simp [hsame] at ha ⊢
        rcases ha with ha | ha
        · exact h a ha
        · rw [ha]; exact hsame
      · simpa [hsame] using h
  | contributeToBuilding =>
    simp only [Room.step, Room.contributeToBuilding]
    by_cases hu : r.underConstruction = true
    · by_cases hc : r.buildProgress + 1 ≥ r.requiredTicks
      · simpa [hu, hc] using h
      · simpa [hu, hc] using h
    · simpa [hu] using h

/-- One call does not change a tag that is not empty. -/
lemma Room.step_species (typeidName : AntClass → String) (σ : AntHeap) (r : Room)
    (op : RoomOp) (h : r.species ≠ "") : (r.step typeidName σ op).species = r.species := by
  have he : ¬ (r.species.isEmpty = true) := fun e => h ((String.isEmpty_iff _).mp e)
  cases op with
  | addAnt ant =>
    simp only [Room.step, Room.addAnt, he]
    by_cases hsame : typeidName (σ ant).kind = r.species
    · simp [hsame]
    · simp [hsame]
  | contributeToBuilding =>
    simp only [Room.step, Room.contributeToBuilding]
    by_cases hu : r.underConstruction = true
    · by_cases hc : r.buildProgress + 1 ≥ r.requiredTicks
      · simp [hu, hc]
      · simp [hu, hc]
    · simp [hu]

/-- A sequence of calls keeps every ant of the room of the species of the tag. -/
lemma Room.run_homogeneous (typeidName : AntClass → String) (σ : AntHeap)
    (hne : ∀ k, typeidName k ≠ "") (ops : List RoomOp) (r : Room)
    (h : ∀ a ∈ r.ants, typeidName (σ a).kind = r.species) :
    ∀ a ∈ (r.run typeidName σ ops).ants,
      typeidName (σ a).kind = (r.run typeidName σ ops).species := by
  induction ops generalizing r with
  | nil => simpa [Room.run] using h
  | cons op rest ih =>
    simpa [Room.run] using ih (r.step typeidName σ op)
      (Room.step_homogeneous typeidName σ hne r op h)

/-- A sequence of calls does not change a tag that is not empty. -/
lemma Room.run_species (typeidName : AntClass → String) (σ : AntHeap)
    (ops : List RoomOp) (r : Room) (h : r.species ≠ "") :
    (r.run typeidName σ ops).species = r.species := by
  induction ops generalizing r with
  | nil => rfl
  | cons op rest ih =>
    have hs := Room.step_species typeidName σ r op h
    have h2 : (r.step typeidName σ op).species ≠ "" := by rw [hs]; exact h
    have := ih (r.step typeidName σ op) h2
    simpa [Room.run, hs] using this

/-- C11: when no class has an empty type name, in every room reached from
either constructor by calls of `addAnt` and `contributeToBuilding`, every ant
of the room has the type name that is the tag of the room, and once the tag is
not empty no further sequence of calls changes it. -/
theorem room_species_homogeneous (typeidName : AntClass → String) (σ : AntHeap)
    (hne : ∀ k, typeidName k ≠ "") (r0 : Room)
    (h0 : r0 = Room.default ∨ ∃ n s t, r0 = Room.new n s t) (ops : List RoomOp) :
    (∀ a ∈ (r0.run typeidName σ ops).ants,
      typeidName (σ a).kind = (r0.run typeidName σ ops).species) ∧
    ((r0.run typeidName σ ops).species ≠ "" →
      ∀ more : List RoomOp,
        ((r0.run typeidName σ ops).run typeidName σ more).species =
          (r0.run typeidName σ ops).species) := by
  refine ⟨?_, fun h more => Room.run_species typeidName σ more _ h⟩
  apply Room.run_homogeneous typeidName σ hne
  rcases h0 with h0 | ⟨n, s, t, h0⟩
  · subst h0
    simp [Room.default]
  · subst h0
    simp [Room.new]

/-- C11 at a concrete input: a default-constructed room that accepts a worker,
rejects a soldier, receives a contribution and accepts a second worker holds
the two workers under the tag of `WorkerAnt`. -/
theorem room_species_homogeneous_witness :
    (∀ k, itaniumName k ≠ "") ∧
    (Room.default.run itaniumName soldierWorkerHeap mixedRoomOps).ants = [1, 2] ∧
    (Room.default.run itaniumName soldierWorkerHeap mixedRoomOps).species = "9WorkerAnt" ∧
    (∀ a ∈ (Room.default.run itaniumName soldierWorkerHeap mixedRoomOps).ants,
      itaniumName (soldierWorkerHeap a).kind =
        (Room.default.run itaniumName soldierWorkerHeap mixedRoomOps).species) :=
  ⟨by intro k; cases k <;> decide, by decide, by decide,
    (room_species_homogeneous itaniumName soldierWorkerHeap
      (by intro k; cases k <;> decide) Room.default (Or.inl rfl) mixedRoomOps).1⟩

/-- A room built with a target of at most zero is complete, with progress 1,
after the first call of `contributeToBuilding` and after every later call. -/
lemma Room.contributeTimes_new_nonpos (name species : String) (n : Int) (hn : n ≤ 0)
    (k : Nat) :
    Room.contributeTimes (k + 1) (Room.new name species n) =
      { name := name, species := species, ants := [], underConstruction := false,
        buildProgress := 1, requiredTicks := n } := by
  induction k with
  | zero =>
    have h1 : n ≤ 1 := by omega
    simp [Room.contributeTimes, Room.new, Room.contributeToBuilding, h1]
  | succ k ih =>
    rw [Room.contributeTimes_succ, ih]
    simp [Room.contributeToBuilding]

/-- C12 as stated fails: a room constructed with target 0 is not complete
right after construction although its progress 0 has reached the target. -/
theorem zero_target_room_incomplete_at_creation :
    (Room.contributeTimes 0 (Room.new "Room1" "RedAnts" 0)).isComplete = false ∧
    (Room.contributeTimes 0 (Room.new "Room1" "RedAnts" 0)).buildProgress ≥
      (Room.contributeTimes 0 (Room.new "Room1" "RedAnts" 0)).requiredTicks := by
  decide

/-- C12 as amended: for a room constructed with any target `n` and given `k`
calls of `contributeToBuilding`, the room is complete exactly when its progress
has reached the target, provided `n ≥ 1` or `k ≥ 1`; a room constructed with a
target `n ≤ 0` is not complete right after construction and is complete after
its first call. -/
theorem complete_iff_progress_reached (name species : String) (n : Int) (k : Nat) :
    ((1 ≤ n ∨ 1 ≤ k) →
      ((Room.contributeTimes k (Room.new name species n)).isComplete = true ↔
        (Room.contributeTimes k (Room.new name species n)).buildProgress ≥
          (Room.contributeTimes k (Room.new name species n)).requiredTicks)) ∧
    (n ≤ 0 →
      (Room.contributeTimes 0 (Room.new name species n)).isComplete = false ∧
      (Room.contributeTimes 1 (Room.new name species n)).isComplete = true) := by
  constructor
  · intro h
    by_cases hn : 1 ≤ n
    · rw [Room.contributeTimes_new name species n hn k]
      by_cases hk : (k : Int) < n
      · have e1 : min (k : Int) n = k := min_eq_left (le_of_lt hk)
        simp [Room.isComplete, hk, e1]
      · have e1 : min (k : Int) n = n := min_eq_right (not_lt.mp hk)
        simp [Room.isComplete, hk, e1]
    · have hk : 1 ≤ k := by
        rcases h with h | h
        · exact absurd h hn
        · exact h
      obtain ⟨j, rfl⟩ : ∃ j, k = j + 1 := ⟨k - 1, by omega⟩
      rw [Room.contributeTimes_new_nonpos name species n (by omega) j]
      simp [Room.isComplete]
      omega
  · intro hn
    refine ⟨by simp [Room.contributeTimes, Room.new, Room.isComplete], ?_⟩
    rw [Room.contributeTimes_new_nonpos name species n hn 0]
    simp [Room.isComplete]

/-- A complete room is not changed by any number of calls of
`contributeToBuilding`. -/
lemma Room.contributeTimes_of_complete (r : Room) (h : r.isComplete = true) (k : Nat) :
    Room.contributeTimes k r = r := by
  have hu : r.underConstruction = false := by simpa [Room.isComplete] using h
  induction k with
  | zero => rfl
  | succ k ih =>
    rw [Room.contributeTimes_succ, ih]
    simp [Room.contributeToBuilding, hu]

/-- One call of `contributeToBuilding` does not lower the progress. -/
lemma Room.buildProgress_le_contribute (r : Room) :
    r.buildProgress ≤ r.contributeToBuilding.1.buildProgress := by
  unfold Room.contributeToBuilding
  by_cases hu : r.underConstruction = true
  · by_cases hc : r.buildProgress + 1 ≥ r.requiredTicks
    · simp [hu, hc]
    · simp [hu, hc]
  · simp [hu]

/-- C18: `contributeToBuilding` on a complete room returns the room unchanged
and writes nothing; on a room under construction it raises `buildProgress` by
exactly one and keeps the name, the tag, the ants and the target.  Hence the
progress never decreases along any number of calls, and a complete room stays
complete (it stays the same room). -/
theorem contribute_frame (r : Room) :
    (r.isComplete = true → r.contributeToBuilding = (r, [])) ∧
    (r.isComplete = false →
      r.contributeToBuilding.1.buildProgress = r.buildProgress + 1 ∧
      r.contributeToBuilding.1.name = r.name ∧
      r.contributeToBuilding.1.species = r.species ∧
      r.contributeToBuilding.1.ants = r.ants ∧
      r.contributeToBuilding.1.requiredTicks = r.requiredTicks) ∧
    (∀ k : Nat, r.buildProgress ≤ (Room.contributeTimes k r).buildProgress) ∧
    (r.isComplete = true → ∀ k : Nat,
      Room.contributeTimes k r = r ∧ (Room.contributeTimes k r).isComplete = true) := by
  refine ⟨?_, ?_, ?_, ?_⟩
  · intro h
    have hu : r.underConstruction = false := by simpa [Room.isComplete] using h
    simp [Room.contributeToBuilding, hu]
  · intro h
    have hu : r.underConstruction = true := by simpa [Room.isComplete] using h
    by_cases hc : r.buildProgress + 1 ≥ r.requiredTicks
    · simp [Room.contributeToBuilding, hu, hc]
    · simp [Room.contributeToBuilding, hu, hc]
  · intro k
    induction k with
    | zero => simp [Room.contributeTimes]
    | succ k ih =>
      rw [Room.contributeTimes_succ]
      exact le_trans ih (Room.buildProgress_le_contribute _)
  · intro h k
    rw [Room.contributeTimes_of_complete r h k]
    exact ⟨rfl, h⟩

/-! ## Ant farm invariants -/

/-- Assignment through an iterator keeps the keys. -/
lemma RoomMap.keys_assign (name : String) (room : Room) (m : RoomMap) :
    (RoomMap.assign name room m).map Prod.fst = m.map Prod.fst := by
  induction m with
  | nil => rfl
  | cons p rest ih =>
    obtain ⟨k, r⟩ := p
    by_cases hk : k = name
    · simp [RoomMap.assign, hk]
    · simp [RoomMap.assign, hk, ih]

/-- The insertion `emplace` of a bound name returns the map unchanged. -/
lemma RoomMap.emplace_of_mem (name : String) (room : Room) (m : RoomMap)
    (h : name ∈ m.map Prod.fst) : RoomMap.emplace name room m = m := by
  unfold RoomMap.emplace
  cases hf : RoomMap.find name m with
  | none => exact absurd h ((RoomMap.find_eq_none_iff name m).mp hf)
  | some r => rfl

/-- The insertion `emplace` of an unbound name appends the binding. -/
lemma RoomMap.emplace_of_not_mem (name : String) (room : Room) (m : RoomMap)
    (h : name ∉ m.map Prod.fst) : RoomMap.emplace name room m = m ++ [(name, room)] := by
  unfold RoomMap.emplace
  rw [(RoomMap.find_eq_none_iff name m).mpr h]

/-- Lookup of another name is not affected by a binding appended for `name`. -/
lemma RoomMap.find_append_other (name other : String) (room : Room) (m : RoomMap)
    (h : other ≠ name) :
    RoomMap.find other (m ++ [(name, room)]) = RoomMap.find other m := by
  induction m with
  | nil =>
    have h2 : ¬ (name = other) := fun e => h e.symm
    simp [RoomMap.find, h2]
  | cons p rest ih =>
    obtain ⟨k, r⟩ := p
    by_cases hk : k = other
    · simp [RoomMap.find, hk]
    · simp [RoomMap.find, hk, ih]

/-- Every call of `AntFarm` keeps the keys of the room map distinct. -/
lemma AntFarm.step_keys_nodup (typeidName : AntClass → String) (σ : AntHeap) (f : AntFarm)
    (op : FarmOp) (h : (f.rooms.map Prod.fst).Nodup) :
    ((f.step typeidName σ op).rooms.map Prod.fst).Nodup := by
  cases op with
  | addRoom name buildTicks =>
    simp only [AntFarm.step, AntFarm.addRoom]
    by_cases hmem : name ∈ f.rooms.map Prod.fst
    · rw [RoomMap.emplace_of_mem name _ _ hmem]
      exact h
    · rw [RoomMap.emplace_of_not_mem name _ _ hmem, List.map_append]
      refine List.Nodup.append h (List.nodup_singleton _) ?_
      intro x hx hx2
      simp only [List.map_cons, List.map_nil, List.mem_singleton] at hx2
      exact hmem (hx2 ▸ hx)
  | addAntToRoom roomName ant =>
    simp only [AntFarm.step, AntFarm.addAntToRoom]
    cases RoomMap.find roomName f.rooms with
    | none => exact h
    | some r => simpa [RoomMap.keys_assign] using h
  | contributeToRoom roomName =>
    simp only [AntFarm.step, AntFarm.contributeToRoom]
    cases RoomMap.find roomName f.rooms with
    | none => exact h
    | some r => simpa [RoomMap.keys_assign] using h
  | feedAnts =>
    simp only [AntFarm.step, AntFarm.feedAnts]
    by_cases hf : f.food ≤ 0
    · simpa [hf] using h
    · simpa [hf] using h

/-- A sequence of calls keeps the keys of the room map distinct. -/
lemma AntFarm.run_keys_nodup (typeidName : AntClass → String) (σ : AntHeap)
    (ops : List FarmOp) (f : AntFarm) (h : (f.rooms.map Prod.fst).Nodup) :
    ((f.run typeidName σ ops).rooms.map Prod.fst).Nodup := by
  induction ops generalizing f with
  | nil => simpa [AntFarm.run] using h
  | cons op rest ih =>
    simpa [AntFarm.run] using ih (f.step typeidName σ op)
      (AntFarm.step_keys_nodup typeidName σ f op h)

/-- C13: the names of the rooms of every farm reached from construction are
pairwise distinct; `addRoom` with a name that is already bound returns the
farm unchanged; `addRoom` with a new name raises the number of rooms by one,
binds the name to a room under construction with progress 0 and the given
target, and leaves every other binding, the species and the food as before. -/
theorem addRoom_keeps_names_unique (typeidName : AntClass → String) (σ : AntHeap)
    (s : String) (ops : List FarmOp) (f : AntFarm) (name : String) (n : Int) :
    ((((AntFarm.new s).run typeidName σ ops).rooms.map Prod.fst).Nodup) ∧
    (name ∈ f.rooms.map Prod.fst → f.addRoom name n = f) ∧
    (name ∉ f.rooms.map Prod.fst →
      (f.addRoom name n).rooms.length = f.rooms.length + 1 ∧
      (∃ r : Room, RoomMap.find name (f.addRoom name n).rooms = some r ∧
        r.underConstruction = true ∧ r.isComplete = false ∧ r.buildProgress = 0 ∧
        r.requiredTicks = n ∧ r.ants = []) ∧
      (∀ other : String, other ≠ name →
        RoomMap.find other (f.addRoom name n).rooms = RoomMap.find other f.rooms) ∧
      (f.addRoom name n).species = f.species ∧ (f.addRoom name n).food = f.food) := by
  refine ⟨?_, ?_, ?_⟩
  · exact AntFarm.run_keys_nodup typeidName σ ops (AntFarm.new s) (by simp [AntFarm.new])
  · intro h
    simp [AntFarm.addRoom, RoomMap.emplace_of_mem name _ _ h]
  · intro h
    have hfind := RoomMap.find_emplace_new name (Room.new name f.species n) f.rooms
      ((RoomMap.find_eq_none_iff name f.rooms).mpr h)
    refine ⟨?_, ⟨Room.new name f.species n, hfind, rfl, rfl, rfl, rfl, rfl⟩, ?_, rfl, rfl⟩
    · simp [AntFarm.addRoom, RoomMap.emplace_of_not_mem name _ _ h]
    · intro other ho
      simp only [AntFarm.addRoom, RoomMap.emplace_of_not_mem name _ _ h]
      exact RoomMap.find_append_other name other _ _ ho

/-- C13 at a concrete input: a second `addRoom("Room1", 9)` on the first farm
of `main` changes nothing, and `addRoom("Room2", 9)` gives it a second room. -/
theorem addRoom_keeps_names_unique_witness :
    ("Room1" ∈ (main.farm1 itaniumName).1.rooms.map Prod.fst ∧
      (main.farm1 itaniumName).1.addRoom "Room1" 9 = (main.farm1 itaniumName).1) ∧
    ("Room2" ∉ (main.farm1 itaniumName).1.rooms.map Prod.fst ∧
      ((main.farm1 itaniumName).1.addRoom "Room2" 9).rooms.length = 2) :=
  ⟨⟨by decide,
      (addRoom_keeps_names_unique itaniumName main.ants "RedAnts" []
        (main.farm1 itaniumName).1 "Room1" 9).2.1 (by decide)⟩,
    ⟨by decide,
      ((addRoom_keeps_names_unique itaniumName main.ants "RedAnts" []
        (main.farm1 itaniumName).1 "Room2" 9).2.2 (by decide)).1⟩⟩

/-- No call of `AntFarm` lowers the number of rooms. -/
lemma AntFarm.step_length_le (typeidName : AntClass → String) (σ : AntHeap) (f : AntFarm)
    (op : FarmOp) : f.rooms.length ≤ (f.step typeidName σ op).rooms.length := by
  cases op with
  | addRoom name buildTicks =>
    exact RoomMap.length_le_length_emplace name _ f.rooms
  | addAntToRoom roomName ant =>
    simp only [AntFarm.step, AntFarm.addAntToRoom]
    cases RoomMap.find roomName f.rooms with
    | none => exact le_refl _
    | some r => simp [RoomMap.length_assign]
  | contributeToRoom roomName =>
    simp only [AntFarm.step, AntFarm.contributeToRoom]
    cases RoomMap.find roomName f.rooms with
    | none => exact le_refl _
    | some r => simp [RoomMap.length_assign]
  | feedAnts =>
    simp only [AntFarm.step, AntFarm.feedAnts]
    by_cases hf : f.food ≤ 0
    · simp [hf]
    · simp [hf]

/-- What `feedAnts` does to the food: nothing, or the number of rooms is taken
off. -/
lemma AntFarm.feedAnts_food (f : AntFarm) :
    f.feedAnts.1.food = f.food ∨ f.feedAnts.1.food = f.food - (f.rooms.length : Int) := by
  by_cases hf : f.food ≤ 0
  · left; simp [AntFarm.feedAnts, hf]
  · right; simp [AntFarm.feedAnts, hf]

/-- Every call other than `feedAnts` leaves the food as it was. -/
lemma AntFarm.step_food_of_ne_feed (typeidName : AntClass → String) (σ : AntHeap)
    (f : AntFarm) (op : FarmOp) (h : op ≠ FarmOp.feedAnts) :
    (f.step typeidName σ op).food = f.food := by
  cases op with
  | addRoom name buildTicks => rfl
  | addAntToRoom roomName ant =>
    simp only [AntFarm.step, AntFarm.addAntToRoom]
    cases RoomMap.find roomName f.rooms <;> rfl
  | contributeToRoom roomName =>
    simp only [AntFarm.step, AntFarm.contributeToRoom]
    cases RoomMap.find roomName f.rooms <;> rfl
  | feedAnts => exact absurd rfl h

/-- No call of `AntFarm` raises the food. -/
lemma AntFarm.step_food_le (typeidName : AntClass → String) (σ : AntHeap) (f : AntFarm)
    (op : FarmOp) : (f.step typeidName σ op).food ≤ f.food := by
  by_cases h : op = FarmOp.feedAnts
  · subst h
    have hl : (0 : Int) ≤ (f.rooms.length : Int) := Int.natCast_nonneg _
    rcases AntFarm.feedAnts_food f with e | e
    · simp only [AntFarm.step]; omega
    · simp only [AntFarm.step]; omega
  · exact le_of_eq (AntFarm.step_food_of_ne_feed typeidName σ f op h)

/-- No sequence of calls of `AntFarm` raises the food. -/
lemma AntFarm.run_food_le (typeidName : AntClass → String) (σ : AntHeap)
    (ops : List FarmOp) (f : AntFarm) : (f.run typeidName σ ops).food ≤ f.food := by
  induction ops generalizing f with
  | nil => simp [AntFarm.run]
  | cons op rest ih =>
    have h1 := ih (f.step typeidName σ op)
    have h2 := AntFarm.step_food_le typeidName σ f op
    simp only [AntFarm.run, List.foldl_cons] at h1 ⊢
    exact le_trans h1 h2

/-- Every call keeps the food of a farm without rooms at 100. -/
lemma AntFarm.step_food_of_no_room (typeidName : AntClass → String) (σ : AntHeap)
    (f : AntFarm) (op : FarmOp) (h : f.rooms = [] → f.food = 100) :
    (f.step typeidName σ op).rooms = [] → (f.step typeidName σ op).food = 100 := by
  intro hnil
  have hlen := AntFarm.step_length_le typeidName σ f op
  rw [hnil] at hlen
  have hrooms : f.rooms = [] := List.length_eq_zero.mp (Nat.le_zero.mp hlen)
  have hfood := h hrooms
  by_cases hop : op = FarmOp.feedAnts
  · subst hop
    rcases AntFarm.feedAnts_food f with e | e
    · simp only [AntFarm.step]; omega
    · simp only [AntFarm.step]; rw [e, hrooms, hfood]; rfl
  · rw [AntFarm.step_food_of_ne_feed typeidName σ f op hop]
    exact hfood

/-- A farm reached from construction that has no room has food 100. -/
lemma AntFarm.run_food_of_no_room (typeidName : AntClass → String) (σ : AntHeap)
    (ops : List FarmOp) (f : AntFarm) (h : f.rooms = [] → f.food = 100) :
    (f.run typeidName σ ops).rooms = [] → (f.run typeidName σ ops).food = 100 := by
  induction ops generalizing f with
  | nil => simpa [AntFarm.run] using h
  | cons op rest ih =>
    simpa [AntFarm.run] using ih (f.step typeidName σ op)
      (AntFarm.step_food_of_no_room typeidName σ f op h)

/-- C19: in every farm reached from construction by calls of `addRoom`,
`addAntToRoom`, `contributeToRoom` and `feedAnts`, the food is at least one
minus the number of rooms when there is a room and is 100 when there is none;
`feedAnts` leaves the food unchanged or lowers it by the number of rooms,
every other call leaves it unchanged, and no further sequence of calls raises
it. -/
theorem food_bounded_and_never_raised (typeidName : AntClass → String) (σ : AntHeap)
    (s : String) (ops : List FarmOp) :
    (((AntFarm.new s).run typeidName σ ops).rooms ≠ [] →
      1 - (((AntFarm.new s).run typeidName σ ops).rooms.length : Int) ≤
        ((AntFarm.new s).run typeidName σ ops).food) ∧
    (((AntFarm.new s).run typeidName σ ops).rooms = [] →
      ((AntFarm.new s).run typeidName σ ops).food = 100) ∧
    ((((AntFarm.new s).run typeidName σ ops).step typeidName σ FarmOp.feedAnts).food =
        ((AntFarm.new s).run typeidName σ ops).food ∨
      (((AntFarm.new s).run typeidName σ ops).step typeidName σ FarmOp.feedAnts).food =
        ((AntFarm.new s).run typeidName σ ops).food -
          (((AntFarm.new s).run typeidName σ ops).rooms.length : Int)) ∧
    (∀ op : FarmOp, op ≠ FarmOp.feedAnts →
      (((AntFarm.new s).run typeidName σ ops).step typeidName σ op).food =
        ((AntFarm.new s).run typeidName σ ops).food) ∧
    (∀ more : List FarmOp,
      (((AntFarm.new s).run typeidName σ ops).run typeidName σ more).food ≤
        ((AntFarm.new s).run typeidName σ ops).food) := by
  refine ⟨?_, ?_, ?_, ?_, ?_⟩
  · intro _
    have h := AntFarm.run_food_bound typeidName σ ops (AntFarm.new s) (by simp [AntFarm.new])
    omega
  · exact AntFarm.run_food_of_no_room typeidName σ ops (AntFarm.new s) (fun _ => rfl)
  · exact AntFarm.feedAnts_food _
  · intro op hop
    exact AntFarm.step_food_of_ne_feed typeidName σ _ op hop
  · intro more
    exact AntFarm.run_food_le typeidName σ more _

/-! ## Ant frame properties -/

/-- C14 as stated fails: a Soldier on which `rest()` was called, and which is
still resting, battles a Worker and its health goes from 70 to 75. -/
theorem resting_soldier_still_fights :
    (restingSoldierHeap 0).resting = true ∧
    (restingSoldierHeap 0).health = 70 ∧
    (Ant.battle restingSoldierHeap 0 1).1 = true ∧
    ((Ant.battle restingSoldierHeap 0 1).2 0).health = 75 := by
  decide

set_option linter.unusedVariables false in
/-- C14 as amended: `battle` reads neither the resting flag nor the health to
decide whether to fight.  For ants with the strengths their classes fix, also
when the caller is resting or one of the two is not alive, the battle takes
place as for any other pair: a strictly stronger caller wins, otherwise the
opponent does, and when the health of the winner plus the floor of half the
strength of the other does not exceed the greatest `int`, the health of the
winner rises by exactly that floor. -/
theorem battle_ignores_eligibility (σ : AntHeap) (a b : Addr)
    (ha : (σ a).StrengthFixed) (hb : (σ b).StrengthFixed)
    (hinel : (σ a).resting = true ∨ (σ a).isAlive = false ∨ (σ b).isAlive = false) :
    ((σ a).strength > (σ b).strength →
      (Ant.battle σ a b).1 = true ∧
      (INT_MIN ≤ (σ a).health → (σ a).health + Int.fdiv (σ b).strength 2 ≤ INT_MAX →
        ((Ant.battle σ a b).2 a).health = (σ a).health + Int.fdiv (σ b).strength 2 ∧
        (σ a).health < ((Ant.battle σ a b).2 a).health)) ∧
    ((σ a).strength ≤ (σ b).strength →
      (Ant.battle σ a b).1 = false ∧
      (INT_MIN ≤ (σ b).health → (σ b).health + Int.fdiv (σ a).strength 2 ≤ INT_MAX →
        ((Ant.battle σ a b).2 b).health = (σ b).health + Int.fdiv (σ a).strength 2 ∧
        (σ b).health < ((Ant.battle σ a b).2 b).health)) := by
  have pa := Ant.fdiv_two_pos _ ha
  have pb := Ant.fdiv_two_pos _ hb
  constructor
  · intro h
    refine ⟨by simp [Ant.battle, h], ?_⟩
    intro h1 h2
    have e := Ant.battle_health_of_win σ a b hb h h1 h2
    exact ⟨e, by rw [e]; omega⟩
  · intro h
    have hn : ¬ (σ a).strength > (σ b).strength := not_lt.mpr h
    refine ⟨by simp [Ant.battle, hn], ?_⟩
    intro h1 h2
    have e := Ant.battle_health_of_loss σ a b ha h h1 h2
    exact ⟨e, by rw [e]; omega⟩

/-- C14 as amended, at a concrete input: the resting Soldier is stronger than
the Worker, wins, and its health rises to 75. -/
theorem battle_ignores_eligibility_witness :
    (restingSoldierHeap 0).resting = true ∧
    (Ant.battle restingSoldierHeap 0 1).1 = true ∧
    ((Ant.battle restingSoldierHeap 0 1).2 0).health = 75 ∧
    (restingSoldierHeap 0).health < ((Ant.battle restingSoldierHeap 0 1).2 0).health :=
  ⟨by decide,
    ((battle_ignores_eligibility restingSoldierHeap 0 1 (by decide) (by decide)
      (Or.inl (by decide))).1 (by decide)).1,
    (((battle_ignores_eligibility restingSoldierHeap 0 1 (by decide) (by decide)
      (Or.inl (by decide))).1 (by decide)).2 (by decide) (by decide)).1,
    (((battle_ignores_eligibility restingSoldierHeap 0 1 (by decide) (by decide)
      (Or.inl (by decide))).1 (by decide)).2 (by decide) (by decide)).2⟩

/-- The health field that `battle` assigns holds the sum it computes when that
sum is a value of `int`. -/
lemma Ant.battle_eq_of_fits (σ : AntHeap) (a b : Addr) (hfit : Ant.battleFits σ a b) :
    Ant.battle σ a b =
      if (σ a).strength > (σ b).strength then
        (true, Function.update σ a
          { σ a with health := (σ a).health + Int.tdiv (σ b).strength 2 })
      else
        (false, Function.update σ b
          { σ b with health := (σ b).health + Int.tdiv (σ a).strength 2 }) := by
  unfold Ant.battleFits Ant.battleSum at hfit
  unfold Ant.battle
  by_cases h : (σ a).strength > (σ b).strength
  · simp only [h, if_true] at hfit ⊢
    rw [wrapInt32_of_inRange _ hfit.1 hfit.2]
  · simp only [h, if_false] at hfit ⊢
    rw [wrapInt32_of_inRange _ hfit.1 hfit.2]

/-- C16: `rest()` sets the resting flag and `recover()` clears it; neither
changes health, strength or class; `rest()` followed by `recover()` on an ant
that was not resting gives back the same ant; each of the two is idempotent. -/
theorem rest_recover_frame (a : Ant) :
    (a.rest.resting = true ∧ a.recover.resting = false) ∧
    (a.rest.health = a.health ∧ a.rest.strength = a.strength ∧ a.rest.kind = a.kind) ∧
    (a.recover.health = a.health ∧ a.recover.strength = a.strength ∧
      a.recover.kind = a.kind) ∧
    (a.resting = false → a.rest.recover = a) ∧
    (a.rest.rest = a.rest ∧ a.recover.recover = a.recover) := by
  refine ⟨⟨rfl, rfl⟩, ⟨rfl, rfl, rfl⟩, ⟨rfl, rfl, rfl⟩, ?_, ⟨rfl, rfl⟩⟩
  intro h
  obtain ⟨k, hl, st, r⟩ := a
  simp only [Ant.resting] at h
  subst h
  rfl

/-- C17: a freshly constructed ant has the health and strength of its class, is
alive and is not resting. -/
theorem fresh_ant_stats :
    (WorkerAnt.health = 50 ∧ WorkerAnt.strength = 10 ∧
      WorkerAnt.isAlive = true ∧ WorkerAnt.resting = false) ∧
    (SoldierAnt.health = 70 ∧ SoldierAnt.strength = 30 ∧
      SoldierAnt.isAlive = true ∧ SoldierAnt.resting = false) ∧
    (QueenAnt.health = 100 ∧ QueenAnt.strength = 50 ∧
      QueenAnt.isAlive = true ∧ QueenAnt.resting = false) := by
  decide

/-! ## The simulation manager never exits with two farms -/

/-- With two registered non-null pointers `checkActiveColonies` writes nothing
and does not call `exit`. -/
lemma SimulationManager.checkActiveColonies_of_two (m : SimulationManager)
    (h2 : 2 ≤ m.antFarms.countP (fun farm => farm.isSome)) :
    m.checkActiveColonies = ([], Status.running) := by
  have hc : ¬ (((m.antFarms.countP (fun farm => farm.isSome) : Nat) : Int) ≤ 1) := by
    omega
  simp only [SimulationManager.checkActiveColonies]
  rw [if_neg hc]

/-- A list of pointers none of which is null is a list of addresses. -/
lemma exists_map_some_of_ne_none (l : List (Option Addr))
    (h : ∀ farm ∈ l, farm ≠ none) : ∃ refs : List Addr, l = refs.map some := by
  induction l with
  | nil => exact ⟨[], rfl⟩
  | cons p rest ih =>
    obtain ⟨refs, hrefs⟩ := ih (fun farm hf => h farm (List.mem_cons_of_mem p hf))
    cases p with
    | none => exact absurd rfl (h none (List.mem_cons_self none rest))
    | some a => exact ⟨a :: refs, by simp [hrefs]⟩

/-- With two registered pointers, none of them null, `simulateTick` is defined
and the process keeps running. -/
lemma SimulationManager.simulateTick_of_two (m : SimulationManager)
    (hnn : ∀ farm ∈ m.antFarms, farm ≠ none)
    (h2 : 2 ≤ m.antFarms.countP (fun farm => farm.isSome)) (σ : FarmHeap) :
    ∃ σ1 outs, m.simulateTick σ = some (σ1, outs, Status.running) := by
  obtain ⟨refs, hrefs⟩ := exists_map_some_of_ne_none m.antFarms hnn
  obtain ⟨outs, hrun, _⟩ := SimulationManager.feedAll_map_some refs σ
  rw [← hrefs] at hrun
  refine ⟨fun a => (fun f : AntFarm => f.feedAnts.1)^[refs.count a] (σ a), outs ++ [], ?_⟩
  simp only [SimulationManager.simulateTick, hrun,
    SimulationManager.checkActiveColonies_of_two m h2]

/-- With two registered non-null pointers a defined `simulateTick` never calls
`exit`. -/
lemma SimulationManager.simulateTick_status_of_two (m : SimulationManager)
    (h2 : 2 ≤ m.antFarms.countP (fun farm => farm.isSome)) (σ : FarmHeap)
    (r : FarmHeap × List Output × Status) (h : m.simulateTick σ = some r) :
    r.2.2 = Status.running := by
  unfold SimulationManager.simulateTick at h
  cases hf : SimulationManager.feedAll σ m.antFarms with
  | none => simp [hf] at h
  | some res =>
    obtain ⟨σ1, outs⟩ := res
    simp only [hf, SimulationManager.checkActiveColonies_of_two m h2,
      Option.some.injEq] at h
    rw [← h]

/-- One call on a running manager with two registered non-null pointers keeps
every registered pointer in place, keeps two of them non-null, and keeps the
process running. -/
lemma Simulation.step_of_two (s s1 : Simulation) (op : ManagerOp)
    (hrun : s.status = Status.running)
    (h2 : 2 ≤ s.manager.antFarms.countP (fun farm => farm.isSome))
    (h : s.step op = some s1) :
    s.manager.antFarms <+: s1.manager.antFarms ∧ s1.status = Status.running ∧
      2 ≤ s1.manager.antFarms.countP (fun farm => farm.isSome) := by
  unfold Simulation.step at h
  rw [hrun] at h
  cases op with
  | addAntFarm farm =>
    simp only [Option.some.injEq] at h
    subst h
    refine ⟨List.prefix_append _ _, rfl, ?_⟩
    simp only [SimulationManager.addAntFarm, List.countP_append]
    omega
  | simulateTick =>
    simp only at h
    cases ht : s.manager.simulateTick s.farms with
    | none => simp [ht] at h
    | some r =>
      obtain ⟨σ1, outs, st⟩ := r
      have hst := SimulationManager.simulateTick_status_of_two s.manager h2 s.farms _ ht
      simp only [ht, Option.some.injEq] at h
      subst h
      exact ⟨List.prefix_refl _, hst, h2⟩
  | checkActiveColonies =>
    simp only [Option.some.injEq] at h
    subst h
    refine ⟨List.prefix_refl _, ?_, h2⟩
    simp [SimulationManager.checkActiveColonies_of_two s.manager h2]

/-- The loop of `main` over a manager with two registered pointers, none of
them null, runs all its iterations. -/
lemma main.loop_of_two (m : SimulationManager)
    (hnn : ∀ farm ∈ m.antFarms, farm ≠ none)
    (h2 : 2 ≤ m.antFarms.countP (fun farm => farm.isSome)) (n : Nat) (i : Int)
    (σ : FarmHeap) : ∃ σ1 outs, main.loop m n i σ = some (σ1, outs, Status.running) := by
  induction n generalizing i σ with
  | zero => exact ⟨σ, [], rfl⟩
  | succ n ih =>
    obtain ⟨σ1, outs, ht⟩ := SimulationManager.simulateTick_of_two m hnn h2 σ
    obtain ⟨σ2, outs2, hl⟩ := ih (i + 1) σ1
    exact ⟨σ2, Output.tick (i + 1) :: outs ++ outs2, by simp [main.loop, ht, hl]⟩

/-- C20: starting from a running manager with at least two registered non-null
pointers, after any sequence of calls of `addAntFarm`, `simulateTick` and
`checkActiveColonies` every pointer registered before is still registered in
its place (so the number of registered farms has not decreased) and the
process has not exited; and when no registered pointer is null the loop of
`main` runs any number of ticks to the end without exiting. -/
theorem two_farms_never_exit (s : Simulation) (hrun : s.status = Status.running)
    (h2 : 2 ≤ s.manager.antFarms.countP (fun farm => farm.isSome)) :
    (∀ (ops : List ManagerOp) (s1 : Simulation), s.run ops = some s1 →
      s.manager.antFarms <+: s1.manager.antFarms ∧
      s.manager.antFarms.length ≤ s1.manager.antFarms.length ∧
      s1.status = Status.running) ∧
    ((∀ farm ∈ s.manager.antFarms, farm ≠ none) →
      ∀ (n : Nat) (i : Int) (σ : FarmHeap),
        ∃ σ1 outs, main.loop s.manager n i σ = some (σ1, outs, Status.running)) := by
  constructor
  · intro ops
    induction ops generalizing s with
    | nil =>
      intro s1 h
      simp only [Simulation.run, Option.some.injEq] at h
      subst h
      exact ⟨List.prefix_refl _, le_refl _, hrun⟩
    | cons op rest ih =>
      intro s1 h
      simp only [Simulation.run] at h
      cases hs : s.step op with
      | none => simp [hs] at h
      | some s2 =>
        simp only [hs] at h
        obtain ⟨hp, hr2, hc2⟩ := Simulation.step_of_two s s2 op hrun h2 hs
        obtain ⟨hp2, _, hr3⟩ := ih s2 hr2 hc2 s1 h
        exact ⟨hp.trans hp2, (hp.trans hp2).length_le, hr3⟩
  · intro hnn n i σ
    exact main.loop_of_two s.manager hnn h2 n i σ

set_option maxRecDepth 8000 in
/-- C20 at the input of `main`: two farms are registered, the ten ticks all run
without `exit`, and each farm ends with food 90. -/
theorem two_farms_never_exit_witness :
    ((main.simulation itaniumName).status = Status.running ∧
      2 ≤ (main.simulation itaniumName).manager.antFarms.countP (fun farm => farm.isSome)) ∧
    ∃ σ1 outs,
      main.loop main.manager 10 0 (main.farms itaniumName) =
        some (σ1, outs, Status.running) ∧
      (σ1 0).food = 90 ∧ (σ1 1).food = 90 := by
  obtain ⟨σ1, outs, h⟩ :=
    (two_farms_never_exit (main.simulation itaniumName) rfl (by decide)).2
      (by decide) 10 0 (main.farms itaniumName)
  have hd : (main.loop main.manager 10 0 (main.farms itaniumName)).map
      (fun r => ((r.1 0).food, (r.1 1).food)) = some (90, 90) := by decide
  have h3 : main.loop main.manager 10 0 (main.farms itaniumName) =
      some (σ1, outs, Status.running) := h
  rw [h3] at hd
  simp only [Option.map_some', Option.some.injEq, Prod.mk.injEq] at hd
  exact ⟨⟨rfl, by decide⟩, σ1, outs, h3, hd.1, hd.2⟩

end AntFarmSimulation
